import Mathlib

/-!
Shallow embedding of the core of the extension-performance-monitor
repository: the history ledger (updateHistory, cleanupOldData), the alert
evaluator (checkAlerts), the scheduler interval selection (startMonitoring),
the component matcher (findBestMatch), the process-tree walker
(getAllDescendants) and the subprocess attribution engine
(collectSubprocessStats).  JS numbers are modelled as rationals, timestamps
as integers, strings as lists of characters.
-/

namespace ExtPerf

/-- Model of the ExtensionMetrics record (src/types, the fields the history
ledger and alert evaluator read): id, displayName, cpuUsage (percent),
memoryUsage (MB), timestamp (ms). -/
structure ExtensionMetrics where
  id : List Char
  displayName : List Char
  cpuUsage : ℚ
  memoryUsage : ℚ
  timestamp : ℤ
deriving DecidableEq, Repr

/-- Model of one peak record: value plus the timestamp at which it was set. -/
structure PeakEntry where
  value : ℚ
  timestamp : ℤ
deriving DecidableEq, Repr

/-- Model of the averages field of PerformanceHistory. -/
structure AveragePair where
  cpu : ℚ
  memory : ℚ
deriving DecidableEq, Repr

/-- Model of the peaks field of PerformanceHistory. -/
structure PeakPair where
  cpu : PeakEntry
  memory : PeakEntry
deriving DecidableEq, Repr

/-- Model of PerformanceHistory (src/types): the per-extension history
record holding the bounded metrics series, the rolling averages and the
running peaks. -/
structure PerformanceHistory where
  extensionId : List Char
  metrics : List ExtensionMetrics
  averages : AveragePair
  peaks : PeakPair
deriving DecidableEq, Repr

/-- Model of the record created lazily by updateHistory
(performanceMonitor.ts lines 298-308) when an extension has no history yet:
empty series, zero averages, zero peaks. -/
def freshHistory (extensionId : List Char) : PerformanceHistory :=
  { extensionId := extensionId
    metrics := []
    averages := { cpu := 0, memory := 0 }
    peaks := { cpu := { value := 0, timestamp := 0 }
               memory := { value := 0, timestamp := 0 } } }

/-- Model of PerformanceMonitor.updateHistory (performanceMonitor.ts lines
311-330) acting on one history record: push the metric, keep the last 1000
entries (slice(-1000), only applied when the length exceeds 1000), recompute
the averages over the last 100 entries (slice(-100)) and bump each peak when
the fresh value is strictly greater.  JS slice(-n) is List.drop (length - n)
with truncated subtraction. -/
def updateHistory (history : PerformanceHistory) (metric : ExtensionMetrics) :
    PerformanceHistory :=
  let pushed := history.metrics ++ [metric]
  let kept := if pushed.length > 1000 then pushed.drop (pushed.length - 1000) else pushed
  let recent := kept.drop (kept.length - 100)
  let avgCpu := (recent.map (·.cpuUsage)).sum / (recent.length : ℚ)
  let avgMem := (recent.map (·.memoryUsage)).sum / (recent.length : ℚ)
  let peakCpu :=
    if metric.cpuUsage > history.peaks.cpu.value then
      { value := metric.cpuUsage, timestamp := metric.timestamp : PeakEntry }
    else history.peaks.cpu
  let peakMem :=
    if metric.memoryUsage > history.peaks.memory.value then
      { value := metric.memoryUsage, timestamp := metric.timestamp : PeakEntry }
    else history.peaks.memory
  { history with
    metrics := kept
    averages := { cpu := avgCpu, memory := avgMem }
    peaks := { cpu := peakCpu, memory := peakMem } }

/-- Folding a whole sequence of metric points into one history record, one
updateHistory call per point, in order. -/
def insertAll (history : PerformanceHistory) (points : List ExtensionMetrics) :
    PerformanceHistory :=
  points.foldl updateHistory history

/-- Model of PerformanceMonitor.cleanupOldData (performanceMonitor.ts lines
424-439) restricted to one history record: keep exactly the metrics whose
timestamp is strictly greater than the cutoff; averages and peaks are not
touched. -/
def cleanupRecord (cutoffTime : ℤ) (history : PerformanceHistory) :
    PerformanceHistory :=
  { history with metrics := history.metrics.filter (fun m => cutoffTime < m.timestamp) }

/-- Model of PerformanceMonitor.cleanupOldData over the whole history map
(represented as the list of its records): cutoff is
now - retentionDays * 24*60*60*1000 and every record is filtered. -/
def cleanupOldData (retentionDays now : ℤ) (histories : List PerformanceHistory) :
    List PerformanceHistory :=
  histories.map (cleanupRecord (now - retentionDays * (24 * 60 * 60 * 1000)))

/-- Alert kinds emitted by checkAlerts. -/
inductive AlertType where
  | cpu
  | memory
deriving DecidableEq, Repr

/-- Model of PerformanceAlert (src/types). -/
structure PerformanceAlert where
  type : AlertType
  extensionId : List Char
  extensionName : List Char
  value : ℚ
  threshold : ℚ
  timestamp : ℤ
deriving DecidableEq, Repr

/-- Model of PerformanceMonitor.checkAlerts (performanceMonitor.ts lines
336-361): a cpu alert exactly when cpuUsage is strictly above the cpu
threshold, and independently a memory alert exactly when memoryUsage is
strictly above the memory threshold, in that order. -/
def checkAlerts (cpuThreshold memoryThreshold : ℚ) (metric : ExtensionMetrics) :
    List PerformanceAlert :=
  (if metric.cpuUsage > cpuThreshold then
      [{ type := AlertType.cpu
         extensionId := metric.id
         extensionName := metric.displayName
         value := metric.cpuUsage
         threshold := cpuThreshold
         timestamp := metric.timestamp }]
    else []) ++
  (if metric.memoryUsage > memoryThreshold then
      [{ type := AlertType.memory
         extensionId := metric.id
         extensionName := metric.displayName
         value := metric.memoryUsage
         threshold := memoryThreshold
         timestamp := metric.timestamp }]
    else [])

/-- DEFAULTS.MONITORING_INTERVAL from src/constants.ts. -/
def MONITORING_INTERVAL_DEFAULT : ℤ := 5000

/-- Model of ConfigManager.getConfig (configManager.ts): the configured value
when one is set, otherwise the supplied default.  No validation or clamping
is performed. -/
def getConfigValue (configured : Option ℤ) (deflt : ℤ) : ℤ :=
  configured.getD deflt

/-- Model of the interval selection in PerformanceMonitor.startMonitoring
(performanceMonitor.ts lines 44 and 52-58): the value handed to setInterval
is getConfig with default DEFAULTS.MONITORING_INTERVAL, used verbatim. -/
def armedInterval (configured : Option ℤ) : ℤ :=
  getConfigValue configured MONITORING_INTERVAL_DEFAULT

/-- Model of the JS String.includes test used by findBestMatch: the needle
occurs as a contiguous substring of the haystack. -/
def containsSub (haystack needle : List Char) : Bool :=
  decide (needle <:+: haystack)

/-- Model of normalizePath (subprocessUsage.ts): replace every backslash by a
slash, then lowercase. -/
def normalizePath (value : List Char) : List Char :=
  (value.map (fun c => if c = '\\' then '/' else c)).map Char.toLower

/-- Model of the ExtensionIndexEntry records built by collectSubprocessStats:
id, display name, normalized install path, lowercased id. -/
structure ExtensionIndexEntry where
  id : List Char
  name : List Char
  path : List Char
  idLower : List Char
deriving DecidableEq, Repr

/-- Whether one index entry matches a normalized command line: the entry's
(already normalized) path or its lowercased id occurs as a substring
(subprocessUsage.ts, the condition on line 205). -/
def matchesEntry (haystack : List Char) (entry : ExtensionIndexEntry) : Bool :=
  containsSub haystack entry.path || containsSub haystack entry.idLower

/-- One step of the findBestMatch loop: a matching entry replaces the current
best exactly when there is no best yet or its path is strictly longer. -/
def findBestMatchStep (haystack : List Char) (best : Option ExtensionIndexEntry)
    (entry : ExtensionIndexEntry) : Option ExtensionIndexEntry :=
  if matchesEntry haystack entry then
    match best with
    | none => some entry
    | some b => if b.path.length < entry.path.length then some entry else some b
  else best

/-- Model of findBestMatch (subprocessUsage.ts lines 196-213): an empty
command yields none; otherwise scan the index in order keeping the matching
entry with the longest path. -/
def findBestMatch (command : List Char) (extensions : List ExtensionIndexEntry) :
    Option ExtensionIndexEntry :=
  if command.isEmpty then none
  else extensions.foldl (findBestMatchStep (normalizePath command)) none

/-- Model of a ps-tree entry (subprocessUsage.ts PsTreeEntry): PID and PPID
hold the result of Number(...) on the reported strings, none standing for a
non-finite parse (NaN); the three command fields are optional strings. -/
structure PsTreeEntry where
  PID : Option ℤ
  PPID : Option ℤ
  COMMAND : Option (List Char)
  COMM : Option (List Char)
  COMMAND_LINE : Option (List Char)
deriving DecidableEq, Repr

/-- Model of the JS expression a || b on optional strings: b when a is
undefined or empty. -/
def orDefault (a : Option (List Char)) (b : List Char) : List Char :=
  match a with
  | some s => if s.isEmpty then b else s
  | none => b

/-- Model of resolveCommand (subprocessUsage.ts line 192-194):
COMMAND_LINE || COMMAND || COMM || empty. -/
def resolveCommand (entry : PsTreeEntry) : List Char :=
  orDefault entry.COMMAND_LINE (orDefault entry.COMMAND (orDefault entry.COMM []))

/-- The walker's validity test on a reported child (subprocessUsage.ts line
181): Number.isFinite(pid) and pid strictly positive; returns the pid. -/
def validChildPid (entry : PsTreeEntry) : Option ℤ :=
  match entry.PID with
  | some n => if 0 < n then some n else none
  | none => none

/-- The OS process-listing primitive (psTree wrapped by getProcessTree) is
modelled as a finite table from pid to either an error (a rejected promise)
or a child list; pids outside the table have no children. -/
def ProcessListing : Type := List (ℤ × Except Unit (List PsTreeEntry))

/-- Model of getProcessTree (subprocessUsage.ts lines 158-168) over the
listing table. -/
def lookupListing (listing : ProcessListing) (pid : ℤ) : Except Unit (List PsTreeEntry) :=
  match listing.find? (fun e => e.1 == pid) with
  | some e => e.2
  | none => Except.ok []

/-- The inner for-loop of getAllDescendants.collect (subprocessUsage.ts lines
179-185): each reported child with a finite positive pid is pushed onto the
accumulator and then recursed into via the supplied step function; a
rejection anywhere aborts the whole walk. -/
def goChildren
    (step : ℤ → List ℤ → List PsTreeEntry → Except Unit (List ℤ × List PsTreeEntry)) :
    List PsTreeEntry → List ℤ → List PsTreeEntry →
      Except Unit (List ℤ × List PsTreeEntry)
  | [], visited, acc => Except.ok (visited, acc)
  | c :: rest, visited, acc =>
    match validChildPid c with
    | none => goChildren step rest visited acc
    | some childPid =>
      match step childPid visited (acc ++ [c]) with
      | Except.error e => Except.error e
      | Except.ok va => goChildren step rest va.1 va.2

/-- Model of getAllDescendants.collect (subprocessUsage.ts lines 174-186):
return unchanged when the pid was already visited, otherwise mark it
visited, list its children and walk them depth-first.  The fuel argument is
only a recursion bound; getAllDescendants always supplies enough for the
finite listing table, so the zero-fuel branch is never reached there. -/
def collectGo (listing : ℤ → Except Unit (List PsTreeEntry)) :
    Nat → ℤ → List ℤ → List PsTreeEntry → Except Unit (List ℤ × List PsTreeEntry)
  | 0 => fun _ visited acc => Except.ok (visited, acc)
  | fuel + 1 => fun pid visited acc =>
    if pid ∈ visited then Except.ok (visited, acc)
    else
      match listing pid with
      | Except.error e => Except.error e
      | Except.ok children => goChildren (collectGo listing fuel) children (pid :: visited) acc

/-- A recursion bound that the walk over a finite listing table can never
exhaust: every level of nesting past the first consumes one distinct child
occurrence of the table. -/
def sufficientFuel (listing : ProcessListing) : Nat :=
  (listing.map (fun e =>
    match e.2 with
    | Except.ok cs => cs.length
    | Except.error _ => 0)).sum + 2

/-- Model of getAllDescendants (subprocessUsage.ts lines 170-190): run
collect from the root with empty visited set and empty accumulator; a
listing rejection is not caught and rejects the whole walk. -/
def getAllDescendants (listing : ProcessListing) (rootPid : ℤ) :
    Except Unit (List PsTreeEntry) :=
  match collectGo (lookupListing listing) (sufficientFuel listing) rootPid [] [] with
  | Except.error e => Except.error e
  | Except.ok va => Except.ok va.2

/-- The valid child pids of a pid under a listing function, empty on a
rejection: the pool of pids the walker can ever push while processing that
pid. -/
def okChildPids (listing : ℤ → Except Unit (List PsTreeEntry)) (pid : ℤ) : List ℤ :=
  match listing pid with
  | Except.ok cs => cs.filterMap validChildPid
  | Except.error _ => []

/-- Model of the ExtensionLike input records of collectSubprocessStats:
id, install path, optional display name. -/
structure ExtensionLike where
  id : List Char
  extensionPath : List Char
  displayName : Option (List Char)
deriving DecidableEq, Repr

/-- Model of SubprocessUsage (subprocessUsage.ts). -/
structure SubprocessUsage where
  pid : ℤ
  ppid : ℤ
  command : List Char
  cpu : ℚ
  memory : ℚ
deriving DecidableEq, Repr

/-- Model of ExtensionSubprocessStats (subprocessUsage.ts). -/
structure ExtensionSubprocessStats where
  extensionId : List Char
  totalCpu : ℚ
  totalMemory : ℚ
  processCount : Nat
  processes : List SubprocessUsage
deriving DecidableEq, Repr

/-- Model of a pidusage Stat: optional cpu percent and optional memory in
bytes (none standing for an undefined field). -/
structure PidusageStat where
  cpu : Option ℚ
  memory : Option ℚ
deriving DecidableEq, Repr

/-- Model of CollectSubprocessStatsOptions (subprocessUsage.ts): the explicit
pid-to-extension override table and the optional root pid. -/
structure CollectOptions where
  pidToExtensionId : List (ℤ × List Char)
  rootPid : Option ℤ
deriving DecidableEq, Repr

/-- The options value used when a caller passes no options. -/
def noOptions : CollectOptions :=
  { pidToExtensionId := [], rootPid := none }

/-- Model of JS Map.set on an association list: replace the value under an
existing key in place, otherwise append the binding. -/
def mapSet (m : List (List Char × ExtensionSubprocessStats)) (k : List Char)
    (v : ExtensionSubprocessStats) : List (List Char × ExtensionSubprocessStats) :=
  if m.any (fun e => e.1 == k) then
    m.map (fun e => if e.1 == k then (k, v) else e)
  else m ++ [(k, v)]

/-- Lookup in the pidusage result record, keyed by pid. -/
def lookupStat (stats : List (ℤ × PidusageStat)) (pid : ℤ) : Option PidusageStat :=
  (stats.find? (fun e => e.1 == pid)).map (fun e => e.2)

/-- Model of the index construction at the top of collectSubprocessStats
(subprocessUsage.ts lines 228-233): display name falls back to the id,
install path is normalized, id is lowercased. -/
def buildIndexEntry (extension : ExtensionLike) : ExtensionIndexEntry :=
  { id := extension.id
    name := orDefault extension.displayName extension.id
    path := normalizePath extension.extensionPath
    idLower := extension.id.map Char.toLower }

/-- Model of the body of the aggregation loop of collectSubprocessStats
(subprocessUsage.ts lines 268-318) for one ps-tree child: skip a non-finite
pid, skip a pid without a usage reading, resolve the command, match through
the override table or the heuristic matcher, skip an unmatched process, and
otherwise fold the reading into the owning extension's running totals. -/
def processChild (indexed : List ExtensionIndexEntry)
    (byId : List (List Char × ExtensionIndexEntry))
    (overrides : List (ℤ × List Char))
    (usageStats : List (ℤ × PidusageStat))
    (statsMap : List (List Char × ExtensionSubprocessStats))
    (child : PsTreeEntry) : List (List Char × ExtensionSubprocessStats) :=
  match child.PID with
  | none => statsMap
  | some pid =>
    match lookupStat usageStats pid with
    | none => statsMap
    | some usage =>
      let command := resolveCommand child
      let matched : Option ExtensionIndexEntry :=
        match overrides.find? (fun e => e.1 == pid) with
        | some forced => (byId.find? (fun e => e.1 == forced.2)).map (fun e => e.2)
        | none => findBestMatch command indexed
      match matched with
      | none => statsMap
      | some m =>
        let entry : SubprocessUsage :=
          { pid := pid
            ppid := (child.PPID).getD 0
            command := command
            cpu := (usage.cpu).getD 0
            memory :=
              match usage.memory with
              | some v => if v = 0 then 0 else v / (1024 * 1024)
              | none => 0 }
        let existing :=
          match statsMap.find? (fun e => e.1 == m.id) with
          | some e => e.2
          | none =>
            { extensionId := m.id
              totalCpu := 0
              totalMemory := 0
              processCount := 0
              processes := [] }
        mapSet statsMap m.id
          { existing with
            totalCpu := existing.totalCpu + entry.cpu
            totalMemory := existing.totalMemory + entry.memory
            processCount := existing.processCount + 1
            processes := existing.processes ++ [entry] }

/-- The by-id index of collectSubprocessStats (subprocessUsage.ts lines
235-238), later bindings overwriting earlier ones as Map.set does. -/
def extensionsById (indexed : List ExtensionIndexEntry) :
    List (List Char × ExtensionIndexEntry) :=
  indexed.foldl
    (fun m en =>
      if m.any (fun e => e.1 == en.id) then
        m.map (fun e => if e.1 == en.id then (en.id, en) else e)
      else m ++ [(en.id, en)])
    []

/-- Model of collectSubprocessStats (subprocessUsage.ts lines 223-321).  The
listing table, the sampler (pidusage) and the own process pid are explicit
parameters.  A walk rejection propagates; an empty child list or empty pid
list short-circuits to the empty mapping; a sampler rejection is caught and
also yields the empty mapping; otherwise every child is folded into the
per-extension totals. -/
def collectSubprocessStats (listing : ProcessListing)
    (sampler : List ℤ → Except Unit (List (ℤ × PidusageStat)))
    (processPid : ℤ) (extensions : List ExtensionLike) (options : CollectOptions) :
    Except Unit (List (List Char × ExtensionSubprocessStats)) :=
  let indexed := extensions.map buildIndexEntry
  let byId := extensionsById indexed
  let rootPid := (options.rootPid).getD processPid
  match getAllDescendants listing rootPid with
  | Except.error e => Except.error e
  | Except.ok children =>
    if children.isEmpty then Except.ok []
    else
      let pids := children.filterMap validChildPid
      if pids.isEmpty then Except.ok []
      else
        match sampler pids with
        | Except.error _ => Except.ok []
        | Except.ok usageStats =>
          Except.ok (children.foldl
            (fun statsMap child =>
              processChild indexed byId options.pidToExtensionId usageStats statsMap child)
            [])

/-- Model of the guard around collectSubprocessStats in
PerformanceMonitor.collectMetrics (performanceMonitor.ts lines 87-95): the
stats map starts empty and a rejection of collectSubprocessStats is caught
and logged, leaving the empty map, so no exception ever reaches the rest of
the round. -/
def roundSubprocessStats (listing : ProcessListing)
    (sampler : List ℤ → Except Unit (List (ℤ × PidusageStat)))
    (processPid : ℤ) (extensions : List ExtensionLike) (options : CollectOptions) :
    List (List Char × ExtensionSubprocessStats) :=
  match collectSubprocessStats listing sampler processPid extensions options with
  | Except.error _ => []
  | Except.ok stats => stats

/-- Model of processCpu in collectMetrics (performanceMonitor.ts line 107):
subprocessInfo?.totalCpu ?? 0. -/
def processCpuOf (stats : List (List Char × ExtensionSubprocessStats))
    (extensionId : List Char) : ℚ :=
  ((stats.find? (fun e => e.1 == extensionId)).map (fun e => e.2.totalCpu)).getD 0

/-- Model of subprocessCount in collectMetrics (performanceMonitor.ts line
109): subprocessInfo?.processCount ?? 0. -/
def processCountOf (stats : List (List Char × ExtensionSubprocessStats))
    (extensionId : List Char) : Nat :=
  ((stats.find? (fun e => e.1 == extensionId)).map (fun e => e.2.processCount)).getD 0

/-- A metric point used to instantiate universally quantified statements at
concrete inputs. -/
def samplePoint : ExtensionMetrics :=
  { id := ['a'], displayName := ['a'], cpuUsage := 3, memoryUsage := 4, timestamp := 1 }

/-- A metric point whose cpu and memory are both zero. -/
def zeroPoint : ExtensionMetrics :=
  { id := ['a'], displayName := ['a'], cpuUsage := 0, memoryUsage := 0, timestamp := 0 }

/-- A history record holding exactly one point with timestamp 0. -/
def staleHistory : PerformanceHistory :=
  { freshHistory ['a'] with
    metrics := [{ id := ['a'], displayName := ['a'], cpuUsage := 5, memoryUsage := 7,
                  timestamp := 0 }] }

/-- An index entry used to instantiate the matcher claim. -/
def matcherEntryA : ExtensionIndexEntry :=
  { id := "pub.exta".toList
    name := "Ext A".toList
    path := "/ext/a".toList
    idLower := "pub.exta".toList }

/-- A ps-tree entry reporting pid 2 under parent 1. -/
def walkChildB : PsTreeEntry :=
  { PID := some 2
    PPID := some 1
    COMMAND := some ("/ext/a/bin/server".toList)
    COMM := none
    COMMAND_LINE := none }

/-- A listing whose root entry double-reports its child. -/
def doubleListing : ProcessListing :=
  [(1, Except.ok [walkChildB, walkChildB])]

/-- A listing that succeeds on the root but fails when the child pid is
listed, modelling a process that exits mid-walk. -/
def failListing : ProcessListing :=
  [(1, Except.ok [walkChildB]), (2, Except.error ())]

/-- A listing that fails already on the root pid, modelling a wholesale
failure of the listing primitive. -/
def rootFailListing : ProcessListing :=
  [(1, Except.error ())]

/-- A well-behaved listing: the root has one child and nothing else. -/
def simpleListing : ProcessListing :=
  [(1, Except.ok [walkChildB])]

/-- A concrete extension record whose install path matches walkChildB's
command line. -/
def extensionA : ExtensionLike :=
  { id := "pub.exta".toList
    extensionPath := "/ext/a".toList
    displayName := none }

/-- A sampler that rejects for every batch, modelling pidusage throwing. -/
def failingSampler : List ℤ → Except Unit (List (ℤ × PidusageStat)) :=
  fun _ => Except.error ()

lemma updateHistory_metrics (h : PerformanceHistory) (m : ExtensionMetrics) :
    (updateHistory h m).metrics =
      if (h.metrics ++ [m]).length > 1000 then
        (h.metrics ++ [m]).drop ((h.metrics ++ [m]).length - 1000)
      else h.metrics ++ [m] := rfl

lemma updateHistory_metrics_drop (h : PerformanceHistory) (m : ExtensionMetrics)
    (p : List ExtensionMetrics) (hp : h.metrics = p.drop (p.length - 1000)) :
    (updateHistory h m).metrics = (p ++ [m]).drop ((p ++ [m]).length - 1000) := by
  rw [updateHistory_metrics, hp]
  rcases Nat.lt_or_ge p.length 1000 with hL | hL
  · have h0 : p.length - 1000 = 0 := by omega
    have hc : ¬ ((p.drop (p.length - 1000) ++ [m]).length > 1000) := by
      rw [h0, List.drop_zero, List.length_append]
      simp
      omega
    rw [if_neg hc, h0, List.drop_zero]
    have h1 : (p ++ [m]).length - 1000 = 0 := by
      rw [List.length_append]
      simp
      omega
    rw [h1, List.drop_zero]
  · have hlen : (p.drop (p.length - 1000)).length = 1000 := by
      rw [List.length_drop]
      omega
    have hc : (p.drop (p.length - 1000) ++ [m]).length > 1000 := by
      rw [List.length_append, hlen]
      simp
    rw [if_pos hc]
    have hidx : (p.drop (p.length - 1000) ++ [m]).length - 1000 = 1 := by
      rw [List.length_append, hlen]
      simp
    rw [hidx]
    have h1 : (1 : ℕ) ≤ (p.drop (p.length - 1000)).length := by
      rw [hlen]
      omega
    rw [List.drop_append_of_le_length h1, List.drop_drop]
    have hidx2 : (p ++ [m]).length - 1000 = p.length - 999 := by
      rw [List.length_append]
      simp
    rw [hidx2]
    have h2 : p.length - 999 ≤ p.length := by omega
    rw [List.drop_append_of_le_length h2]
    have h3 : p.length - 1000 + 1 = p.length - 999 := by omega
    rw [h3]

lemma insertAll_concat (h : PerformanceHistory) (l : List ExtensionMetrics)
    (m : ExtensionMetrics) :
    insertAll h (l ++ [m]) = updateHistory (insertAll h l) m := by
  simp [insertAll, List.foldl_append]

lemma insertAll_metrics (i : List Char) (l : List ExtensionMetrics) :
    (insertAll (freshHistory i) l).metrics = l.drop (l.length - 1000) := by
  induction l using List.reverseRecOn with
  | nil => rfl
  | append_singleton l m ih =>
    rw [insertAll_concat]
    exact updateHistory_metrics_drop _ m l ih

/-- C2: for every sequence of points inserted in order into one fresh
history record, the retained metrics are exactly the most recent
min(N, 1000) inserted points in insertion (chronological) order — the
inserted sequence with all but its last 1000 entries dropped; in particular
inserting 1500 points sequentially leaves exactly points 501 through
1500. -/
theorem claim_history_cap (i : List Char) (l : List ExtensionMetrics) :
    (insertAll (freshHistory i) l).metrics = l.drop (l.length - 1000) ∧
    (insertAll (freshHistory i) l).metrics.length = min l.length 1000 ∧
    (l.length = 1500 → (insertAll (freshHistory i) l).metrics = l.drop 500) := by
  refine ⟨insertAll_metrics i l, ?_, ?_⟩
  · rw [insertAll_metrics, List.length_drop]
    omega
  · intro h15
    rw [insertAll_metrics, h15]

/-- Witness for claim_history_cap: a concrete 1500-point sequence keeps
exactly its last 1000 points. -/
theorem claim_history_cap_witness :
    (List.replicate 1500 samplePoint).length = 1500 ∧
    (insertAll (freshHistory ['a']) (List.replicate 1500 samplePoint)).metrics =
      (List.replicate 1500 samplePoint).drop 500 :=
  ⟨List.length_replicate 1500 samplePoint,
    (claim_history_cap ['a'] (List.replicate 1500 samplePoint)).2.2
      (List.length_replicate 1500 samplePoint)⟩

lemma updateHistory_averages_cpu (h : PerformanceHistory) (m : ExtensionMetrics) :
    (updateHistory h m).averages.cpu =
      (((updateHistory h m).metrics.drop ((updateHistory h m).metrics.length - 100)).map
          (·.cpuUsage)).sum /
        ((((updateHistory h m).metrics.drop ((updateHistory h m).metrics.length - 100)).length :
          ℕ) : ℚ) := rfl

lemma updateHistory_averages_memory (h : PerformanceHistory) (m : ExtensionMetrics) :
    (updateHistory h m).averages.memory =
      (((updateHistory h m).metrics.drop ((updateHistory h m).metrics.length - 100)).map
          (·.memoryUsage)).sum /
        ((((updateHistory h m).metrics.drop ((updateHistory h m).metrics.length - 100)).length :
          ℕ) : ℚ) := rfl

lemma metrics_drop_last100 (l : List ExtensionMetrics) :
    (l.drop (l.length - 1000)).drop ((l.drop (l.length - 1000)).length - 100) =
      l.drop (l.length - 100) := by
  rw [List.drop_drop, List.length_drop]
  have h1 : l.length - 1000 + (l.length - (l.length - 1000) - 100) = l.length - 100 := by
    omega
  rw [h1]

/-- C3 counterexample: inserting a single point whose cpu and memory are
both zero leaves a record whose rollingAverage.cpu is zero while the record
does hold a point, so a zero average does not imply an empty record. -/
theorem claim_rolling_average_counterexample :
    (updateHistory (freshHistory ['a']) zeroPoint).averages.cpu = 0 ∧
    (updateHistory (freshHistory ['a']) zeroPoint).metrics ≠ [] := by
  constructor
  · rw [updateHistory_averages_cpu]
    norm_num [updateHistory, freshHistory, zeroPoint]
  · simp [updateHistory, freshHistory, zeroPoint]

/-- C3 (amended): after every insert, rollingAverage.cpu equals exactly the
arithmetic mean of the cpu values of the most recent min(len(points), 100)
points, and likewise for memory; the averages are zero in the fresh record
that holds no points, but a record that holds points can also average zero
(for example after all-zero inserts), so zero does not imply an empty
record. -/
theorem claim_rolling_average (i : List Char) (l : List ExtensionMetrics)
    (hne : l ≠ []) :
    (insertAll (freshHistory i) l).averages.cpu =
      ((l.drop (l.length - 100)).map (·.cpuUsage)).sum / ((min l.length 100 : ℕ) : ℚ) ∧
    (insertAll (freshHistory i) l).averages.memory =
      ((l.drop (l.length - 100)).map (·.memoryUsage)).sum / ((min l.length 100 : ℕ) : ℚ) ∧
    (freshHistory i).averages.cpu = 0 ∧
    (freshHistory i).averages.memory = 0 ∧
    (freshHistory i).metrics = [] := by
  rcases List.eq_nil_or_concat l with hnil | ⟨l', m, hl⟩
  · exact absurd hnil hne
  rw [List.concat_eq_append] at hl
  subst hl
  rw [insertAll_concat]
  have hmet : (updateHistory (insertAll (freshHistory i) l') m).metrics =
      (l' ++ [m]).drop ((l' ++ [m]).length - 1000) :=
    updateHistory_metrics_drop _ m l' (insertAll_metrics i l')
  have hdrop :
      ((updateHistory (insertAll (freshHistory i) l') m).metrics.drop
        ((updateHistory (insertAll (freshHistory i) l') m).metrics.length - 100)) =
      (l' ++ [m]).drop ((l' ++ [m]).length - 100) := by
    rw [hmet]
    exact metrics_drop_last100 (l' ++ [m])
  have hlen :
      ((l' ++ [m]).drop ((l' ++ [m]).length - 100)).length = min (l' ++ [m]).length 100 := by
    rw [List.length_drop]
    omega
  refine ⟨?_, ?_, rfl, rfl, rfl⟩
  · rw [updateHistory_averages_cpu, hdrop, hlen]
  · rw [updateHistory_averages_memory, hdrop, hlen]

/-- Witness for claim_rolling_average at a concrete one-point sequence. -/
theorem claim_rolling_average_witness :
    ([samplePoint] : List ExtensionMetrics) ≠ [] ∧
    (insertAll (freshHistory ['a']) [samplePoint]).averages.cpu =
      (([samplePoint].drop ([samplePoint].length - 100)).map (·.cpuUsage)).sum /
        ((min [samplePoint].length 100 : ℕ) : ℚ) :=
  ⟨by decide, (claim_rolling_average ['a'] [samplePoint] (by decide)).1⟩

lemma updateHistory_peak_cpu (h : PerformanceHistory) (m : ExtensionMetrics) :
    (updateHistory h m).peaks.cpu =
      if h.peaks.cpu.value < m.cpuUsage then
        { value := m.cpuUsage, timestamp := m.timestamp }
      else h.peaks.cpu := rfl

lemma updateHistory_peak_memory (h : PerformanceHistory) (m : ExtensionMetrics) :
    (updateHistory h m).peaks.memory =
      if h.peaks.memory.value < m.memoryUsage then
        { value := m.memoryUsage, timestamp := m.timestamp }
      else h.peaks.memory := rfl

lemma updateHistory_peak_cpu_value (h : PerformanceHistory) (m : ExtensionMetrics) :
    (updateHistory h m).peaks.cpu.value = max h.peaks.cpu.value m.cpuUsage := by
  rcases le_or_lt m.cpuUsage h.peaks.cpu.value with hle | hlt
  · rw [updateHistory_peak_cpu, if_neg (not_lt.mpr hle), max_eq_left hle]
  · rw [updateHistory_peak_cpu, if_pos hlt, max_eq_right (le_of_lt hlt)]

lemma updateHistory_peak_memory_value (h : PerformanceHistory) (m : ExtensionMetrics) :
    (updateHistory h m).peaks.memory.value = max h.peaks.memory.value m.memoryUsage := by
  rcases le_or_lt m.memoryUsage h.peaks.memory.value with hle | hlt
  · rw [updateHistory_peak_memory, if_neg (not_lt.mpr hle), max_eq_left hle]
  · rw [updateHistory_peak_memory, if_pos hlt, max_eq_right (le_of_lt hlt)]

lemma insertAll_peak_cpu_value (l : List ExtensionMetrics) :
    ∀ h : PerformanceHistory,
      (insertAll h l).peaks.cpu.value = (l.map (·.cpuUsage)).foldl max h.peaks.cpu.value := by
  induction l with
  | nil => intro h; rfl
  | cons m rest ih =>
    intro h
    have hstep : insertAll h (m :: rest) = insertAll (updateHistory h m) rest := rfl
    rw [hstep, ih (updateHistory h m), List.map_cons, List.foldl_cons,
      updateHistory_peak_cpu_value]

lemma insertAll_peak_memory_value (l : List ExtensionMetrics) :
    ∀ h : PerformanceHistory,
      (insertAll h l).peaks.memory.value =
        (l.map (·.memoryUsage)).foldl max h.peaks.memory.value := by
  induction l with
  | nil => intro h; rfl
  | cons m rest ih =>
    intro h
    have hstep : insertAll h (m :: rest) = insertAll (updateHistory h m) rest := rfl
    rw [hstep, ih (updateHistory h m), List.map_cons, List.foldl_cons,
      updateHistory_peak_memory_value]

lemma le_foldl_max (xs : List ℚ) : ∀ a : ℚ, a ≤ xs.foldl max a := by
  induction xs with
  | nil => intro a; exact le_refl a
  | cons x xs ih => intro a; exact le_trans (le_max_left a x) (ih (max a x))

lemma mem_le_foldl_max (xs : List ℚ) : ∀ a : ℚ, ∀ x ∈ xs, x ≤ xs.foldl max a := by
  induction xs with
  | nil => intro a x hx; cases hx
  | cons y xs ih =>
    intro a x hx
    rcases List.mem_cons.mp hx with h | h
    · subst h; exact le_trans (le_max_right a x) (le_foldl_max xs (max a x))
    · exact ih (max a y) x h

lemma foldl_max_eq_or_mem (xs : List ℚ) : ∀ a : ℚ, xs.foldl max a = a ∨ xs.foldl max a ∈ xs := by
  induction xs with
  | nil => intro a; exact Or.inl rfl
  | cons y xs ih =>
    intro a
    rcases ih (max a y) with h | h
    · rw [List.foldl_cons, h]
      rcases le_or_lt y a with hy | hy
      · exact Or.inl (max_eq_left hy)
      · exact Or.inr (by rw [max_eq_right (le_of_lt hy)]; exact List.mem_cons_self y xs)
    · exact Or.inr (List.mem_cons_of_mem y h)

lemma foldl_max_zero_spec (xs : List ℚ) (hne : xs ≠ []) (hnn : ∀ x ∈ xs, 0 ≤ x) :
    xs.foldl max 0 ∈ xs ∧ ∀ x ∈ xs, x ≤ xs.foldl max 0 := by
  refine ⟨?_, mem_le_foldl_max xs 0⟩
  rcases foldl_max_eq_or_mem xs 0 with h0 | hmem
  · rcases xs with _ | ⟨x, rest⟩
    · exact absurd rfl hne
    · have hmemx : x ∈ x :: rest := List.mem_cons_self x rest
      have hx0 : x = 0 :=
        le_antisymm (h0 ▸ mem_le_foldl_max (x :: rest) 0 x hmemx) (hnn x hmemx)
      rw [h0, ← hx0]
      exact hmemx
  · exact hmem

/-- C4: with all inserted values nonnegative, after any nonempty sequence of
inserts the running peak value is the maximum over the inserted values (it
is attained by some inserted point and bounds every inserted point), for
cpu and for memory alike; and an insert whose value is lower than or equal
to the current peak value leaves the peak record (value and timestamp)
entirely unchanged, so ties preserve the earliest peak timestamp. -/
theorem claim_peak_running_max (i : List Char) (l : List ExtensionMetrics)
    (hne : l ≠ [])
    (hcpu : ∀ p ∈ l, 0 ≤ p.cpuUsage) (hmem : ∀ p ∈ l, 0 ≤ p.memoryUsage) :
    ((insertAll (freshHistory i) l).peaks.cpu.value ∈ l.map (·.cpuUsage) ∧
      ∀ p ∈ l, p.cpuUsage ≤ (insertAll (freshHistory i) l).peaks.cpu.value) ∧
    ((insertAll (freshHistory i) l).peaks.memory.value ∈ l.map (·.memoryUsage) ∧
      ∀ p ∈ l, p.memoryUsage ≤ (insertAll (freshHistory i) l).peaks.memory.value) ∧
    (∀ (h : PerformanceHistory) (m : ExtensionMetrics),
      (m.cpuUsage ≤ h.peaks.cpu.value → (updateHistory h m).peaks.cpu = h.peaks.cpu) ∧
      (m.memoryUsage ≤ h.peaks.memory.value →
        (updateHistory h m).peaks.memory = h.peaks.memory)) := by
  have hc := insertAll_peak_cpu_value l (freshHistory i)
  have hm := insertAll_peak_memory_value l (freshHistory i)
  have hne2 : l.map (·.cpuUsage) ≠ [] := by
    intro hmap
    exact hne (List.map_eq_nil_iff.mp hmap)
  have hne3 : l.map (·.memoryUsage) ≠ [] := by
    intro hmap
    exact hne (List.map_eq_nil_iff.mp hmap)
  have hnn2 : ∀ x ∈ l.map (·.cpuUsage), 0 ≤ x := by
    intro x hx
    rcases List.mem_map.mp hx with ⟨p, hp, hpx⟩
    exact hpx ▸ hcpu p hp
  have hnn3 : ∀ x ∈ l.map (·.memoryUsage), 0 ≤ x := by
    intro x hx
    rcases List.mem_map.mp hx with ⟨p, hp, hpx⟩
    exact hpx ▸ hmem p hp
  have hspec2 := foldl_max_zero_spec (l.map (·.cpuUsage)) hne2 hnn2
  have hspec3 := foldl_max_zero_spec (l.map (·.memoryUsage)) hne3 hnn3
  refine ⟨⟨?_, ?_⟩, ⟨?_, ?_⟩, ?_⟩
  · rw [hc]; exact hspec2.1
  · intro p hp
    rw [hc]
    exact hspec2.2 p.cpuUsage (List.mem_map_of_mem (·.cpuUsage) hp)
  · rw [hm]; exact hspec3.1
  · intro p hp
    rw [hm]
    exact hspec3.2 p.memoryUsage (List.mem_map_of_mem (·.memoryUsage) hp)
  · intro h m
    constructor
    · intro hle
      rw [updateHistory_peak_cpu, if_neg (not_lt.mpr hle)]
    · intro hle
      rw [updateHistory_peak_memory, if_neg (not_lt.mpr hle)]

/-- Witness for claim_peak_running_max at a concrete one-point sequence. -/
theorem claim_peak_running_max_witness :
    (([samplePoint] : List ExtensionMetrics) ≠ [] ∧
      (∀ p ∈ ([samplePoint] : List ExtensionMetrics), 0 ≤ p.cpuUsage) ∧
      (∀ p ∈ ([samplePoint] : List ExtensionMetrics), 0 ≤ p.memoryUsage)) ∧
    (insertAll (freshHistory ['a']) [samplePoint]).peaks.cpu.value ∈
      [samplePoint].map (·.cpuUsage) :=
  ⟨⟨by decide, by decide, by decide⟩,
    ((claim_peak_running_max ['a'] [samplePoint] (by decide) (by decide) (by decide)).1).1⟩

/-- C5 counterexample: with retention 1 day and now = 86400000 ms the cutoff
is 0; the record holds one point with timestampMs exactly 0, which is at
(not strictly below) the cutoff, yet cleanupOldData removes it, because the
code keeps only points with timestamp strictly greater than the cutoff. -/
theorem claim_retention_counterexample :
    86400000 - 1 * (24 * 60 * 60 * 1000) = 0 ∧
    staleHistory.metrics.map (·.timestamp) = [0] ∧
    cleanupOldData 1 86400000 [staleHistory] = [{ staleHistory with metrics := [] }] := by
  refine ⟨by norm_num, rfl, ?_⟩
  simp [cleanupOldData, cleanupRecord, staleHistory, freshHistory]

/-- C5 (amended): the retention cleanup removes from every record exactly
the points whose timestampMs is at or below the cutoff now − d*86400000 (a
point with timestamp exactly equal to the cutoff is removed too; only
strictly later points survive), and leaves every record's rollingAverage
and peak fields unchanged. -/
theorem claim_retention_filter (d now : ℤ) (histories : List PerformanceHistory)
    (h : PerformanceHistory) :
    cleanupOldData d now histories =
      histories.map (cleanupRecord (now - d * (24 * 60 * 60 * 1000))) ∧
    (∀ m, m ∈ (cleanupRecord (now - d * (24 * 60 * 60 * 1000)) h).metrics ↔
      (m ∈ h.metrics ∧ now - d * (24 * 60 * 60 * 1000) < m.timestamp)) ∧
    (cleanupRecord (now - d * (24 * 60 * 60 * 1000)) h).averages = h.averages ∧
    (cleanupRecord (now - d * (24 * 60 * 60 * 1000)) h).peaks = h.peaks ∧
    (cleanupRecord (now - d * (24 * 60 * 60 * 1000)) h).extensionId = h.extensionId := by
  refine ⟨rfl, ?_, rfl, rfl, rfl⟩
  intro m
  simp [cleanupRecord, List.mem_filter]

/-- C9 counterexample: a configured interval of 100 ms is outside the
documented 1000-60000 ms range, yet startMonitoring arms the timer with the
value 100 verbatim; nothing clamps it or falls back to the default. -/
theorem claim_interval_counterexample :
    armedInterval (some 100) = 100 ∧ ¬ (1000 ≤ armedInterval (some 100)) := by
  constructor
  · rfl
  · decide

/-- C9 (amended): startMonitoring arms the timer with the configured
monitoringInterval verbatim, whatever its value; the default 5000 ms is
used only when no value is configured, and only that default is guaranteed
to lie within 1000-60000 ms.  No clamping of out-of-range configured values
takes place. -/
theorem claim_interval_verbatim (c : ℤ) :
    armedInterval (some c) = c ∧
    armedInterval none = MONITORING_INTERVAL_DEFAULT ∧
    1000 ≤ armedInterval none ∧ armedInterval none ≤ 60000 :=
  ⟨rfl, rfl, by decide, by decide⟩

/-- C10: for every pair of thresholds and every metric point, checkAlerts
emits exactly one cpu alert when cpuUsage is strictly greater than the cpu
threshold and none otherwise (so a point exactly at the threshold emits no
cpu alert), and independently exactly one memory alert when memoryUsage is
strictly greater than the memory threshold; a point above both thresholds
therefore emits both alerts. -/
theorem claim_alert_strictness (cpuThreshold memoryThreshold : ℚ)
    (metric : ExtensionMetrics) :
    ((checkAlerts cpuThreshold memoryThreshold metric).filter
        (fun a => decide (a.type = AlertType.cpu))).length =
      (if cpuThreshold < metric.cpuUsage then 1 else 0) ∧
    ((checkAlerts cpuThreshold memoryThreshold metric).filter
        (fun a => decide (a.type = AlertType.memory))).length =
      (if memoryThreshold < metric.memoryUsage then 1 else 0) := by
  constructor <;>
  · by_cases h1 : cpuThreshold < metric.cpuUsage <;>
      by_cases h2 : memoryThreshold < metric.memoryUsage <;>
        simp [checkAlerts, gt_iff_lt, h1, h2]

lemma findBestMatchStep_not_matching (hay : List Char)
    (best : Option ExtensionIndexEntry) (e : ExtensionIndexEntry)
    (hm : matchesEntry hay e = false) :
    findBestMatchStep hay best e = best := by
  simp [findBestMatchStep, hm]

lemma findBestMatchStep_none_matching (hay : List Char) (e : ExtensionIndexEntry)
    (hm : matchesEntry hay e = true) :
    findBestMatchStep hay none e = some e := by
  simp [findBestMatchStep, hm]

lemma foldl_step_isSome (hay : List Char) (exts : List ExtensionIndexEntry) :
    ∀ init : Option ExtensionIndexEntry,
      (exts.foldl (findBestMatchStep hay) init).isSome =
        (init.isSome || exts.any (matchesEntry hay)) := by
  induction exts with
  | nil => intro init; simp
  | cons e rest ih =>
    intro init
    rw [List.foldl_cons, ih (findBestMatchStep hay init e), List.any_cons]
    have hstep : (findBestMatchStep hay init e).isSome =
        (init.isSome || matchesEntry hay e) := by
      by_cases hm : matchesEntry hay e = true
      · cases init with
        | none => simp [findBestMatchStep, hm]
        | some b =>
          by_cases hlt : b.path.length < e.path.length <;>
            simp [findBestMatchStep, hm, hlt]
      · have hm' : matchesEntry hay e = false := by
          revert hm
          cases matchesEntry hay e <;> simp
        simp [findBestMatchStep, hm']
    rw [hstep, Bool.or_assoc]

lemma foldl_step_mono (hay : List Char) (exts : List ExtensionIndexEntry) :
    ∀ b r, exts.foldl (findBestMatchStep hay) (some b) = some r →
      b.path.length ≤ r.path.length := by
  induction exts with
  | nil =>
    intro b r h
    rw [List.foldl_nil] at h
    rw [Option.some.inj h]
  | cons e rest ih =>
    intro b r h
    rw [List.foldl_cons] at h
    by_cases hm : matchesEntry hay e = true
    · by_cases hlt : b.path.length < e.path.length
      · have hs : findBestMatchStep hay (some b) e = some e := by
          simp [findBestMatchStep, hm, hlt]
        rw [hs] at h
        exact le_trans (le_of_lt hlt) (ih e r h)
      · have hs : findBestMatchStep hay (some b) e = some b := by
          simp [findBestMatchStep, hm, hlt]
        rw [hs] at h
        exact ih b r h
    · have hm' : matchesEntry hay e = false := by
        revert hm
        cases matchesEntry hay e <;> simp
      rw [findBestMatchStep_not_matching hay (some b) e hm'] at h
      exact ih b r h

lemma foldl_step_from (hay : List Char) (exts : List ExtensionIndexEntry) :
    ∀ init r, exts.foldl (findBestMatchStep hay) init = some r →
      init = some r ∨ (r ∈ exts ∧ matchesEntry hay r = true) := by
  induction exts with
  | nil => intro init r h; exact Or.inl h
  | cons e rest ih =>
    intro init r h
    rw [List.foldl_cons] at h
    rcases ih (findBestMatchStep hay init e) r h with hinit | ⟨hmem, hmat⟩
    · by_cases hm : matchesEntry hay e = true
      · cases init with
        | none =>
          rw [findBestMatchStep_none_matching hay e hm] at hinit
          have he : e = r := Option.some.inj hinit
          subst he
          exact Or.inr ⟨List.mem_cons_self e rest, hm⟩
        | some b =>
          by_cases hlt : b.path.length < e.path.length
          · have hs : findBestMatchStep hay (some b) e = some e := by
              simp [findBestMatchStep, hm, hlt]
            rw [hs] at hinit
            have he : e = r := Option.some.inj hinit
            subst he
            exact Or.inr ⟨List.mem_cons_self e rest, hm⟩
          · have hs : findBestMatchStep hay (some b) e = some b := by
              simp [findBestMatchStep, hm, hlt]
            rw [hs] at hinit
            exact Or.inl hinit
      · have hm' : matchesEntry hay e = false := by
          revert hm
          cases matchesEntry hay e <;> simp
        rw [findBestMatchStep_not_matching hay init e hm'] at hinit
        exact Or.inl hinit
    · exact Or.inr ⟨List.mem_cons_of_mem e hmem, hmat⟩

lemma foldl_step_bound (hay : List Char) (exts : List ExtensionIndexEntry) :
    ∀ init r, exts.foldl (findBestMatchStep hay) init = some r →
      ∀ e ∈ exts, matchesEntry hay e = true → e.path.length ≤ r.path.length := by
  induction exts with
  | nil => intro init r _ e he; cases he
  | cons e' rest ih =>
    intro init r h e he hme
    rw [List.foldl_cons] at h
    rcases List.mem_cons.mp he with heq | hmem
    · subst heq
      have hstep : ∃ b', findBestMatchStep hay init e = some b' ∧
          e.path.length ≤ b'.path.length := by
        cases init with
        | none => exact ⟨e, findBestMatchStep_none_matching hay e hme, le_refl _⟩
        | some b =>
          by_cases hlt : b.path.length < e.path.length
          · exact ⟨e, by simp [findBestMatchStep, hme, hlt], le_refl _⟩
          · exact ⟨b, by simp [findBestMatchStep, hme, hlt], not_lt.mp hlt⟩
      rcases hstep with ⟨b', hb', hleb⟩
      rw [hb'] at h
      exact le_trans hleb (foldl_step_mono hay rest b' r h)
    · exact ih (findBestMatchStep hay init e') r h e hmem hme

/-- C6: findBestMatch returns some entry exactly when the command line is
nonempty and at least one index entry's normalized install path or
lowercased id occurs as a substring of the normalized command line; any
returned entry is itself a matching entry of the index whose install-path
length is maximal among all matching entries; an empty command line or an
index with no matching entry yields none, and the function is total, so no
error is possible; the last conjunct states that the Boolean containsSub
used by matchesEntry is exactly substring occurrence. -/
theorem claim_matcher (command : List Char) (extensions : List ExtensionIndexEntry) :
    ((findBestMatch command extensions).isSome ↔
      (command ≠ [] ∧ ∃ e ∈ extensions, matchesEntry (normalizePath command) e = true)) ∧
    (∀ r, findBestMatch command extensions = some r →
      r ∈ extensions ∧ matchesEntry (normalizePath command) r = true ∧
      ∀ e ∈ extensions, matchesEntry (normalizePath command) e = true →
        e.path.length ≤ r.path.length) ∧
    (∀ haystack needle, containsSub haystack needle = true ↔ needle <:+: haystack) := by
  refine ⟨?_, ?_, ?_⟩
  · by_cases hemp : command.isEmpty = true
    · have hc : command = [] := List.isEmpty_iff.mp hemp
      rw [findBestMatch, if_pos hemp]
      simp [hc]
    · have hc : command ≠ [] := by
        intro h0
        exact hemp (List.isEmpty_iff.mpr h0)
      rw [findBestMatch, if_neg hemp]
      rw [show (extensions.foldl (findBestMatchStep (normalizePath command)) none).isSome =
          ((none : Option ExtensionIndexEntry).isSome ||
            extensions.any (matchesEntry (normalizePath command))) from
        foldl_step_isSome (normalizePath command) extensions none]
      simp [List.any_eq_true, hc]
  · intro r hr
    by_cases hemp : command.isEmpty = true
    · rw [findBestMatch, if_pos hemp] at hr
      cases hr
    · rw [findBestMatch, if_neg hemp] at hr
      rcases foldl_step_from (normalizePath command) extensions none r hr with h0 | ⟨hmem, hmat⟩
      · cases h0
      · exact ⟨hmem, hmat, foldl_step_bound (normalizePath command) extensions none r hr⟩
  · intro haystack needle
    exact decide_eq_true_iff

/-- Witness for claim_matcher: a concrete command line that contains the
entry's install path is matched to that entry, which satisfies the stated
membership, matching and maximality properties. -/
theorem claim_matcher_witness :
    findBestMatch ("/ext/a/bin/server".toList) [matcherEntryA] = some matcherEntryA ∧
    matcherEntryA ∈ [matcherEntryA] ∧
    matchesEntry (normalizePath ("/ext/a/bin/server".toList)) matcherEntryA = true := by
  have hfind : findBestMatch ("/ext/a/bin/server".toList) [matcherEntryA] =
      some matcherEntryA := by decide
  have happ := (claim_matcher ("/ext/a/bin/server".toList) [matcherEntryA]).2.1
    matcherEntryA hfind
  exact ⟨hfind, happ.1, happ.2.1⟩

lemma goChildren_nil
    (step : ℤ → List ℤ → List PsTreeEntry → Except Unit (List ℤ × List PsTreeEntry))
    (visited : List ℤ) (acc : List PsTreeEntry) :
    goChildren step [] visited acc = Except.ok (visited, acc) := rfl

lemma goChildren_cons
    (step : ℤ → List ℤ → List PsTreeEntry → Except Unit (List ℤ × List PsTreeEntry))
    (c : PsTreeEntry) (rest : List PsTreeEntry) (visited : List ℤ)
    (acc : List PsTreeEntry) :
    goChildren step (c :: rest) visited acc =
      match validChildPid c with
      | none => goChildren step rest visited acc
      | some childPid =>
        match step childPid visited (acc ++ [c]) with
        | Except.error e => Except.error e
        | Except.ok va => goChildren step rest va.1 va.2 := rfl

lemma collectGo_zero (listing : ℤ → Except Unit (List PsTreeEntry)) (pid : ℤ)
    (visited : List ℤ) (acc : List PsTreeEntry) :
    collectGo listing 0 pid visited acc = Except.ok (visited, acc) := rfl

lemma collectGo_succ (listing : ℤ → Except Unit (List PsTreeEntry)) (fuel : ℕ) (pid : ℤ)
    (visited : List ℤ) (acc : List PsTreeEntry) :
    collectGo listing (fuel + 1) pid visited acc =
      if pid ∈ visited then Except.ok (visited, acc)
      else
        match listing pid with
        | Except.error e => Except.error e
        | Except.ok children =>
          goChildren (collectGo listing fuel) children (pid :: visited) acc := rfl

lemma goChildren_spec (listing : ℤ → Except Unit (List PsTreeEntry)) (fuel : ℕ)
    (hcollect : ∀ pid visited acc v₀ a₀,
      collectGo listing fuel pid visited acc = Except.ok (v₀, a₀) →
      ∃ w out, v₀ = w ++ visited ∧ a₀ = acc ++ out ∧ w.Nodup ∧
        (∀ x ∈ w, x ∉ visited) ∧
        (↑(out.filterMap validChildPid) : Multiset ℤ) ≤
          (↑((w.map (okChildPids listing)).flatten) : Multiset ℤ)) :
    ∀ (cs : List PsTreeEntry) (visited : List ℤ) (acc : List PsTreeEntry)
      (v₀ : List ℤ) (a₀ : List PsTreeEntry),
      goChildren (collectGo listing fuel) cs visited acc = Except.ok (v₀, a₀) →
      ∃ w out, v₀ = w ++ visited ∧ a₀ = acc ++ out ∧ w.Nodup ∧
        (∀ x ∈ w, x ∉ visited) ∧
        (↑(out.filterMap validChildPid) : Multiset ℤ) ≤
          (↑(cs.filterMap validChildPid) : Multiset ℤ) +
            (↑((w.map (okChildPids listing)).flatten) : Multiset ℤ) := by
  intro cs
  induction cs with
  | nil =>
    intro visited acc v₀ a₀ h
    rw [goChildren_nil, Except.ok.injEq, Prod.mk.injEq] at h
    obtain ⟨rfl, rfl⟩ := h
    exact ⟨[], [], rfl, (List.append_nil acc).symm, List.nodup_nil, by simp, by simp⟩
  | cons c rest ih =>
    intro visited acc v₀ a₀ h
    cases hv : validChildPid c with
    | none =>
      simp only [goChildren_cons, hv] at h
      obtain ⟨w, out, h1, h2, h3, h4, h5⟩ := ih visited acc v₀ a₀ h
      refine ⟨w, out, h1, h2, h3, h4, ?_⟩
      have hfm : (c :: rest).filterMap validChildPid = rest.filterMap validChildPid := by
        simp [List.filterMap_cons, hv]
      rw [hfm]
      exact h5
    | some childPid =>
      simp only [goChildren_cons, hv] at h
      cases hcg : collectGo listing fuel childPid visited (acc ++ [c]) with
      | error e =>
        rw [hcg] at h
        cases h
      | ok va =>
        obtain ⟨v₁, a₁⟩ := va
        rw [hcg] at h
        obtain ⟨w₁, out₁, hv₁, ha₁, hw₁nd, hw₁f, hle₁⟩ :=
          hcollect childPid visited (acc ++ [c]) v₁ a₁ hcg
        obtain ⟨w₂, out₂, hv₂, ha₂, hw₂nd, hw₂f, hle₂⟩ := ih v₁ a₁ v₀ a₀ h
        refine ⟨w₂ ++ w₁, [c] ++ out₁ ++ out₂, ?_, ?_, ?_, ?_, ?_⟩
        · rw [hv₂, hv₁, List.append_assoc]
        · rw [ha₂, ha₁]
          simp
        · rw [List.nodup_append]
          refine ⟨hw₂nd, hw₁nd, ?_⟩
          intro x hx2 hx1
          exact hw₂f x hx2 (by rw [hv₁]; exact List.mem_append.mpr (Or.inl hx1))
        · intro x hx
          rcases List.mem_append.mp hx with hx2 | hx1
          · intro hxv
            exact hw₂f x hx2 (by rw [hv₁]; exact List.mem_append.mpr (Or.inr hxv))
          · exact hw₁f x hx1
        · have hL : ([c] ++ out₁ ++ out₂).filterMap validChildPid =
              [childPid] ++ (out₁.filterMap validChildPid ++ out₂.filterMap validChildPid) := by
            simp [List.filterMap_append, List.filterMap_cons, hv]
          have hR1 : (c :: rest).filterMap validChildPid =
              [childPid] ++ rest.filterMap validChildPid := by
            simp [List.filterMap_cons, hv]
          have hR2 : (((w₂ ++ w₁).map (okChildPids listing)).flatten) =
              ((w₂.map (okChildPids listing)).flatten) ++
                ((w₁.map (okChildPids listing)).flatten) := by
            simp [List.map_append, List.flatten_append]
          rw [hL, hR1, hR2]
          simp only [← Multiset.coe_add]
          have hstep : (↑[childPid] : Multiset ℤ) +
                ((↑(out₁.filterMap validChildPid) : Multiset ℤ) +
                  (↑(out₂.filterMap validChildPid) : Multiset ℤ)) ≤
              (↑[childPid] : Multiset ℤ) +
                ((↑((w₁.map (okChildPids listing)).flatten) : Multiset ℤ) +
                  ((↑(rest.filterMap validChildPid) : Multiset ℤ) +
                    (↑((w₂.map (okChildPids listing)).flatten) : Multiset ℤ))) :=
            add_le_add le_rfl (add_le_add hle₁ hle₂)
          refine le_trans hstep (le_of_eq ?_)
          abel

lemma collectGo_spec (listing : ℤ → Except Unit (List PsTreeEntry)) :
    ∀ (fuel : ℕ) (pid : ℤ) (visited : List ℤ) (acc : List PsTreeEntry)
      (v₀ : List ℤ) (a₀ : List PsTreeEntry),
      collectGo listing fuel pid visited acc = Except.ok (v₀, a₀) →
      ∃ w out, v₀ = w ++ visited ∧ a₀ = acc ++ out ∧ w.Nodup ∧
        (∀ x ∈ w, x ∉ visited) ∧
        (↑(out.filterMap validChildPid) : Multiset ℤ) ≤
          (↑((w.map (okChildPids listing)).flatten) : Multiset ℤ) := by
  intro fuel
  induction fuel with
  | zero =>
    intro pid visited acc v₀ a₀ h
    rw [collectGo_zero, Except.ok.injEq, Prod.mk.injEq] at h
    obtain ⟨rfl, rfl⟩ := h
    exact ⟨[], [], rfl, (List.append_nil acc).symm, List.nodup_nil, by simp, by simp⟩
  | succ fuel ih =>
    intro pid visited acc v₀ a₀ h
    rw [collectGo_succ] at h
    by_cases hvis : pid ∈ visited
    · rw [if_pos hvis, Except.ok.injEq, Prod.mk.injEq] at h
      obtain ⟨rfl, rfl⟩ := h
      exact ⟨[], [], rfl, (List.append_nil acc).symm, List.nodup_nil, by simp, by simp⟩
    · rw [if_neg hvis] at h
      cases hl : listing pid with
      | error e =>
        rw [hl] at h
        cases h
      | ok children =>
        rw [hl] at h
        obtain ⟨w₁, out, hv₁, ha, hnd, hf, hle⟩ :=
          goChildren_spec listing fuel ih children (pid :: visited) acc v₀ a₀ h
        refine ⟨w₁ ++ [pid], out, ?_, ha, ?_, ?_, ?_⟩
        · rw [hv₁, List.append_cons]
        · rw [List.nodup_append]
          refine ⟨hnd, List.nodup_cons.mpr ⟨List.not_mem_nil pid, List.nodup_nil⟩, ?_⟩
          intro x hx1 hxp
          rcases List.mem_singleton.mp hxp with rfl
          exact hf x hx1 (List.mem_cons_self x visited)
        · intro x hx
          rcases List.mem_append.mp hx with hx1 | hxp
          · intro hxv
            exact hf x hx1 (List.mem_cons_of_mem pid hxv)
          · rcases List.mem_singleton.mp hxp with rfl
            exact hvis
        · have hpid : okChildPids listing pid = children.filterMap validChildPid := by
            unfold okChildPids
            rw [hl]
          have hR : (((w₁ ++ [pid]).map (okChildPids listing)).flatten) =
              ((w₁.map (okChildPids listing)).flatten) ++ children.filterMap validChildPid := by
            simp [List.map_append, List.flatten_append, hpid]
          rw [hR]
          rw [← Multiset.coe_add]
          have hstep : (↑(out.filterMap validChildPid) : Multiset ℤ) ≤
              (↑(children.filterMap validChildPid) : Multiset ℤ) +
                (↑((w₁.map (okChildPids listing)).flatten) : Multiset ℤ) := hle
          refine le_trans hstep (le_of_eq ?_)
          exact add_comm _ _

lemma lookupListing_simple_ne (p : ℤ) (hp : p ≠ 1) :
    lookupListing simpleListing p = Except.ok [] := by
  have h1 : ((1 : ℤ) == p) = false := beq_eq_false_iff_ne.mpr (fun h => hp h.symm)
  simp [lookupListing, simpleListing, List.find?, h1]

lemma simple_nodup (p : ℤ) : (okChildPids (lookupListing simpleListing) p).Nodup := by
  by_cases hp : p = 1
  · subst hp
    have h2 : okChildPids (lookupListing simpleListing) 1 = [2] := by decide
    rw [h2]
    exact List.nodup_singleton 2
  · have h0 : okChildPids (lookupListing simpleListing) p = [] := by
      unfold okChildPids
      rw [lookupListing_simple_ne p hp]
      rfl
    rw [h0]
    exact List.nodup_nil

lemma simple_disjoint (p q : ℤ) (hne : p ≠ q) (x : ℤ)
    (hx : x ∈ okChildPids (lookupListing simpleListing) p) :
    x ∉ okChildPids (lookupListing simpleListing) q := by
  intro hx'
  by_cases hp : p = 1
  · by_cases hq : q = 1
    · exact hne (hp.trans hq.symm)
    · have h0 : okChildPids (lookupListing simpleListing) q = [] := by
        unfold okChildPids
        rw [lookupListing_simple_ne q hq]
        rfl
      rw [h0] at hx'
      cases hx'
  · have h0 : okChildPids (lookupListing simpleListing) p = [] := by
      unfold okChildPids
      rw [lookupListing_simple_ne p hp]
      rfl
    rw [h0] at hx
    cases hx

/-- C7 counterexample: a listing whose root entry double-reports child pid 2
makes the walk return a sequence in which pid 2 appears twice: the child
entry is pushed before the visited check, so the visited set only stops the
recursion, not duplicate output, and the same process can be aggregated
twice in one round. -/
theorem claim_walk_dedup_counterexample :
    getAllDescendants doubleListing 1 = Except.ok [walkChildB, walkChildB] ∧
    ((match getAllDescendants doubleListing 1 with
      | Except.ok cs => cs.filterMap validChildPid
      | Except.error _ => []).count 2) = 2 := by
  constructor
  · rfl
  · rfl

/-- C7 (amended): the walk lists each pid's children at most once, so
whenever the listing itself reports each process as a child of at most one
parent and at most once there, the returned sequence contains each pid at
most once; but a listing that double-reports a child (see the
counterexample) makes the pid appear more than once in the output. -/
theorem claim_walk_nodup (L : ProcessListing) (root : ℤ) (out : List PsTreeEntry)
    (hnd : ∀ p, (okChildPids (lookupListing L) p).Nodup)
    (hdisj : ∀ p q, p ≠ q → ∀ x, x ∈ okChildPids (lookupListing L) p →
      x ∉ okChildPids (lookupListing L) q)
    (hok : getAllDescendants L root = Except.ok out) :
    (out.filterMap validChildPid).Nodup := by
  unfold getAllDescendants at hok
  cases hcg : collectGo (lookupListing L) (sufficientFuel L) root [] [] with
  | error e =>
    rw [hcg] at hok
    cases hok
  | ok va =>
    obtain ⟨v₁, a₁⟩ := va
    rw [hcg, Except.ok.injEq] at hok
    obtain ⟨w, o, hv, ha, hwnd, hwf, hle⟩ :=
      collectGo_spec (lookupListing L) (sufficientFuel L) root [] [] v₁ a₁ hcg
    have hao : out = o := by
      rw [← hok, ha]
      rfl
    have hfnd : (((w.map (okChildPids (lookupListing L))).flatten)).Nodup := by
      rw [List.nodup_flatten]
      constructor
      · intro l hl
        rcases List.mem_map.mp hl with ⟨p, _, hpl⟩
        rw [← hpl]
        exact hnd p
      · rw [List.pairwise_map]
        exact List.Pairwise.imp
          (fun hne x hx hx' => (hdisj _ _ hne x hx) hx') hwnd
    rw [hao]
    exact Multiset.coe_nodup.mp
      (Multiset.nodup_of_le hle (Multiset.coe_nodup.mpr hfnd))

/-- Witness for claim_walk_nodup on a concrete well-behaved listing. -/
theorem claim_walk_nodup_witness :
    getAllDescendants simpleListing 1 = Except.ok [walkChildB] ∧
    ([walkChildB].filterMap validChildPid).Nodup := by
  have hok : getAllDescendants simpleListing 1 = Except.ok [walkChildB] := rfl
  exact ⟨hok,
    claim_walk_nodup simpleListing 1 [walkChildB] simple_nodup simple_disjoint hok⟩

lemma collectGo_root_error (listing : ℤ → Except Unit (List PsTreeEntry)) (fuel : ℕ)
    (pid : ℤ) (visited : List ℤ) (acc : List PsTreeEntry) (hfuel : fuel ≠ 0)
    (hvis : pid ∉ visited) (herr : listing pid = Except.error ()) :
    collectGo listing fuel pid visited acc = Except.error () := by
  cases fuel with
  | zero => exact absurd rfl hfuel
  | succ f =>
    rw [collectGo_succ, if_neg hvis, herr]

/-- C8 counterexample: with a listing that reports child pid 2 under the
root but fails when pid 2 is itself listed (the process exited mid-walk),
the walk does not return the partial subtree collected before the failure:
it propagates the error, rejecting the whole call. -/
theorem claim_walk_partial_counterexample :
    getAllDescendants failListing 1 = Except.error () ∧
    getAllDescendants failListing 1 ≠ Except.ok [walkChildB] := by
  refine ⟨rfl, ?_⟩
  intro h
  rw [show getAllDescendants failListing 1 = Except.error () from rfl] at h
  exact Except.noConfusion h

/-- C8 (amended): the walk catches no listing failure: a failure on the
root pid (and likewise on any reached pid) rejects the whole walk, the
rejection propagates out of collectSubprocessStats uncaught, and it is only
the round (collectMetrics) that catches it, falls back to the empty stats
mapping — in which every extension defaults to zero subprocess usage — and
so lets no exception reach the caller of the round. -/
theorem claim_walk_failure (L : ProcessListing) (root : ℤ)
    (sampler : List ℤ → Except Unit (List (ℤ × PidusageStat)))
    (processPid : ℤ) (extensions : List ExtensionLike) (options : CollectOptions)
    (extId : List Char) :
    (lookupListing L root = Except.error () →
      getAllDescendants L root = Except.error ()) ∧
    (getAllDescendants L ((options.rootPid).getD processPid) = Except.error () →
      collectSubprocessStats L sampler processPid extensions options =
        Except.error ()) ∧
    (collectSubprocessStats L sampler processPid extensions options =
        Except.error () →
      roundSubprocessStats L sampler processPid extensions options = []) ∧
    processCpuOf [] extId = 0 ∧ processCountOf [] extId = 0 := by
  refine ⟨?_, ?_, ?_, rfl, rfl⟩
  · intro herr
    unfold getAllDescendants
    rw [collectGo_root_error (lookupListing L) (sufficientFuel L) root [] []
      (by unfold sufficientFuel; omega) (List.not_mem_nil root) herr]
  · intro hw
    simp only [collectSubprocessStats]
    rw [hw]
  · intro hc
    unfold roundSubprocessStats
    rw [hc]

/-- Witness for claim_walk_failure on a listing that fails at the root. -/
theorem claim_walk_failure_witness :
    lookupListing rootFailListing 1 = Except.error () ∧
    getAllDescendants rootFailListing 1 = Except.error () ∧
    roundSubprocessStats rootFailListing failingSampler 1 [extensionA] noOptions = [] := by
  have h := claim_walk_failure rootFailListing 1 failingSampler 1 [extensionA]
    noOptions ['a']
  have h1 : lookupListing rootFailListing 1 = Except.error () := rfl
  have h2 := h.1 h1
  have h3 := h.2.1 h2
  exact ⟨h1, h2, h.2.2.1 h3⟩

/-- C1 counterexample: with one extension whose install path matches the
discovered child processes and a sampler that rejects for the whole batch,
collectSubprocessStats succeeds with the EMPTY mapping; the extension is
not present with zeroed totals (the find? on the returned empty mapping is
none), contrary to the claim that every component is present with
processCount = 0 and totalCpu = 0. -/
theorem claim_batch_failure_counterexample :
    collectSubprocessStats doubleListing failingSampler 1 [extensionA] noOptions =
      Except.ok [] ∧
    (([] : List (List Char × ExtensionSubprocessStats)).find?
      (fun s => s.1 == extensionA.id)) = none := ⟨rfl, rfl⟩

/-- C1 (amended): when the sampling primitive rejects for the whole batch,
collectSubprocessStats catches the rejection and returns the empty mapping
— no component is present in it — rather than a mapping with every
component zeroed; the failure is not fatal to the round, whose per-extension
defaulting then yields totalCpu = 0 and processCount = 0 for every
extension looked up in the empty mapping. -/
theorem claim_batch_failure (L : ProcessListing)
    (sampler : List ℤ → Except Unit (List (ℤ × PidusageStat)))
    (processPid : ℤ) (extensions : List ExtensionLike) (options : CollectOptions)
    (children : List PsTreeEntry) (extId : List Char)
    (hwalk : getAllDescendants L ((options.rootPid).getD processPid) =
      Except.ok children)
    (hfail : sampler (children.filterMap validChildPid) = Except.error ()) :
    collectSubprocessStats L sampler processPid extensions options = Except.ok [] ∧
    roundSubprocessStats L sampler processPid extensions options = [] ∧
    processCpuOf [] extId = 0 ∧ processCountOf [] extId = 0 := by
  have hmain : collectSubprocessStats L sampler processPid extensions options =
      Except.ok [] := by
    simp only [collectSubprocessStats, hwalk]
    by_cases hemp : children.isEmpty = true
    · rw [if_pos hemp]
    · rw [if_neg hemp]
      by_cases hpemp : (children.filterMap validChildPid).isEmpty = true
      · rw [if_pos hpemp]
      · rw [if_neg hpemp, hfail]
  refine ⟨hmain, ?_, rfl, rfl⟩
  unfold roundSubprocessStats
  rw [hmain]

/-- Witness for claim_batch_failure on the concrete double-report listing
and the always-rejecting sampler. -/
theorem claim_batch_failure_witness :
    getAllDescendants doubleListing ((noOptions.rootPid).getD 1) =
      Except.ok [walkChildB, walkChildB] ∧
    failingSampler ([walkChildB, walkChildB].filterMap validChildPid) =
      Except.error () ∧
    roundSubprocessStats doubleListing failingSampler 1 [extensionA] noOptions = [] :=
  ⟨rfl, rfl,
    (claim_batch_failure doubleListing failingSampler 1 [extensionA] noOptions
      [walkChildB, walkChildB] ['a'] rfl rfl).2.1⟩

end ExtPerf
